import Mathlib

/-!
Verification of the yash-rs lexical/syntactic front end and word-expansion
engine against its natural-language specification.

The definitions below are a shallow embedding of the Rust source:

* `src/src/parser/core.rs` — parse errors, the alias-substitution `Rec`
  trampoline (`finish`, `zip`), and the `Parser` here-document queues;
* `src/src/parser/lex/op.rs` — the operator trie;
* `src/yash-semantics/src/expansion.rs` — attributed characters, the
  `Expansion` sink and the quoting-scope `Output` wrapper;
* `src/yash-semantics/src/expansion/glob.rs` — pathname expansion.

Async functions are embedded as pure state-passing functions; panics and
`todo!` aborts are embedded as the `none` case of an `Option` result.
Parts of the repository that are referenced but whose sources are not in
the sampled tree (the lexer's here-document reader, the `yash-fnmatch`
pattern engine, `AttrField::remove_quotes_and_strip`, the directory-scan
capability) are modelled from the specification and are marked as such in
their doc comments.
-/

namespace Yash

/-- Provenance of source code. Modelled from the spec: "tagged with a
provenance source identifier" (§3); only the `Unknown` variant is exercised
by the sampled sources. -/
inductive Source where
  | Unknown
deriving DecidableEq, Repr

/-- A line of source code. Modelled from the spec: "a line (shared,
reference-counted by content, numbered from 1, tagged with a provenance
source identifier)" (§3). -/
structure Line where
  value : String
  number : Nat
  source : Source
deriving DecidableEq, Repr

/-- A position in source code: a `Line` plus a 1-based column (§3). -/
structure Location where
  line : Line
  column : Nat
deriving DecidableEq, Repr

/-- Payload of `ErrorCause::IoError` (`Rc<std::io::Error>` in
`parser/core.rs`); the error object is opaque to the parser, which never
inspects it, so it is modelled as a bare message. -/
structure IoErrorData where
  msg : String
deriving DecidableEq, Repr

/-- `ErrorCause` from `src/src/parser/core.rs`: types of errors that may
happen in parsing. -/
inductive ErrorCause where
  | IoError (e : IoErrorData)
  | UnexpectedToken
  | MissingHereDocDelimiter
  | MissingHereDocContent
deriving DecidableEq, Repr

/-- The hand-written `impl PartialEq for ErrorCause` in
`src/src/parser/core.rs`: only the three unit variants compare equal to
themselves; every comparison involving `IoError` falls into the catch-all
`_ => false` arm. -/
def ErrorCause.beq : ErrorCause → ErrorCause → Bool
  | .UnexpectedToken, .UnexpectedToken => true
  | .MissingHereDocDelimiter, .MissingHereDocDelimiter => true
  | .MissingHereDocContent, .MissingHereDocContent => true
  | _, _ => false

/-- `Error` from `src/src/parser/core.rs`: explanation of a failure in
parsing. -/
structure Error where
  cause : ErrorCause
  location : Location
deriving DecidableEq, Repr

/-- The derived `PartialEq` on `Error` (`#[derive(..., PartialEq)]`):
field-wise comparison, using the hand-written `ErrorCause` comparison for
the `cause` field and structural equality for the `location` field. -/
def Error.beq (a b : Error) : Bool :=
  ErrorCause.beq a.cause b.cause && decide (a.location = b.location)

/-- `Rec` from `src/src/parser/core.rs`: modifier that makes a result of
parsing optional so the parser can restart after alias substitution. -/
inductive Rec (T : Type) where
  | AliasSubstituted
  | Empty (t : T)
  | NonEmpty (t : T)
deriving DecidableEq, Repr

/-- A parsing step, as seen by `finish` and `Rec::zip`. The Rust closures
are `FnMut`, so their behaviour may change between invocations; the step is
therefore modelled as a function of the invocation index (0 for the first
call made by the surrounding combinator). -/
def Step (T : Type) : Type := Nat → Except Error (Rec T)

/-- `finish` from `src/src/parser/core.rs`, starting the invocation count
at `k`: repeatedly applies the parsing step until it yields `Empty` or
`NonEmpty` (returning the contained value) or an error (returned as is,
via the `?` operator). The Rust `loop` is embedded with explicit `fuel`
bounding the number of iterations; `none` means the fuel was exhausted
before the loop returned. -/
def finishFrom {T : Type} (f : Step T) : Nat → Nat → Option (Except Error T)
  | 0, _ => none
  | fuel + 1, k =>
    match f k with
    | .error e => some (.error e)
    | .ok (.Empty t) => some (.ok t)
    | .ok (.NonEmpty t) => some (.ok t)
    | .ok .AliasSubstituted => finishFrom f fuel (k + 1)

/-- `finish` proper: the trampoline run from the first invocation. -/
def finish {T : Type} (f : Step T) (fuel : Nat) : Option (Except Error T) :=
  finishFrom f fuel 0

/-- `Rec::zip` from `src/src/parser/core.rs`. The second step `f` is the
`FnMut` closure, again indexed by invocation count; in the Rust source it
always receives a reference to the same first-step value `t`, so that
argument is not repeated here. `fuel` bounds the `finish` loop used in the
`NonEmpty` branch exactly as in `finishFrom`. -/
def Rec.zip {T U : Type} (r : Rec T) (f : Step U) (fuel : Nat) :
    Option (Except Error (Rec (T × U))) :=
  match r with
  | .AliasSubstituted => some (.ok .AliasSubstituted)
  | .Empty t =>
    match f 0 with
    | .error e => some (.error e)
    | .ok .AliasSubstituted => some (.ok .AliasSubstituted)
    | .ok (.Empty u) => some (.ok (.Empty (t, u)))
    | .ok (.NonEmpty u) => some (.ok (.NonEmpty (t, u)))
  | .NonEmpty t =>
    match finishFrom f fuel 0 with
    | none => none
    | some (.error e) => some (.error e)
    | some (.ok u) => some (.ok (.NonEmpty (t, u)))

/-- `Rec::map` from `src/src/parser/core.rs`: transforms the result value
carried by a `Rec`, propagating errors of the transformation. -/
def Rec.mapR {T U : Type} (r : Rec T) (f : T → Except Error U) :
    Except Error (Rec U) :=
  match r with
  | .AliasSubstituted => .ok .AliasSubstituted
  | .Empty t => (f t).map .Empty
  | .NonEmpty t => (f t).map .NonEmpty

/-- After skipping `n` leading `AliasSubstituted` results, `finishFrom`
settles on whatever the step returns at invocation `n`. -/
theorem finishFrom_skip {T : Type} (f : Step T) :
    ∀ (n k : Nat), (∀ i, i < n → f (k + i) = .ok .AliasSubstituted) →
      finishFrom f (n + 1) k =
        match f (k + n) with
        | .error e => some (.error e)
        | .ok (.Empty t) => some (.ok t)
        | .ok (.NonEmpty t) => some (.ok t)
        | .ok .AliasSubstituted => none := by
  intro n
  induction n with
  | zero =>
    intro k _
    cases hk : f k with
    | error e => simp [finishFrom, hk]
    | ok r => cases r <;> simp [finishFrom, hk]
  | succ m ih =>
    intro k h
    have h0 : f (k + 0) = .ok .AliasSubstituted := h 0 (Nat.succ_pos m)
    simp only [Nat.add_zero] at h0
    have step : finishFrom f (m + 1 + 1) k = finishFrom f (m + 1) (k + 1) := by
      simp only [finishFrom, h0]
    have h2 : ∀ i, i < m → f (k + 1 + i) = .ok .AliasSubstituted := by
      intro i hi
      have := h (i + 1) (Nat.succ_lt_succ hi)
      simpa [Nat.add_comm, Nat.add_assoc, Nat.add_left_comm] using this
    have h3 : k + 1 + m = k + (m + 1) := by omega
    rw [step, ih (k + 1) h2, h3]

/-- C3: whenever repeated invocation of the parsing step eventually returns
`Ok(Empty(t))` or `Ok(NonEmpty(t))` after any number `n` of leading
`Ok(AliasSubstituted)` results, `finish` terminates within `n + 1`
iterations and returns `Ok(t)`; and if the step instead fails first, the
trampoline returns that first error. -/
theorem finish_terminates {T : Type} (f : Step T) (n : Nat) (t : T) (e : Error)
    (halias : ∀ i, i < n → f i = .ok .AliasSubstituted) :
    ((f n = .ok (.Empty t) ∨ f n = .ok (.NonEmpty t)) →
      finish f (n + 1) = some (.ok t)) ∧
    (f n = .error e → finish f (n + 1) = some (.error e)) := by
  have key := finishFrom_skip f n 0 (by intro i hi; simpa using halias i hi)
  simp only [Nat.zero_add] at key
  constructor
  · intro hfin
    cases hfin with
    | inl h => rw [finish, key, h]
    | inr h => rw [finish, key, h]
  · intro herr
    rw [finish, key, herr]

/-- Closed witness for `finish_terminates`: a step that alias-substitutes
twice and then succeeds with `Empty 7`, and a step that alias-substitutes
twice and then fails. -/
theorem finish_terminates_witness :
    (finish (fun i => if i < 2 then .ok .AliasSubstituted else .ok (.Empty 7))
        3 = some (.ok 7)) ∧
    (finish (T := Nat) (fun i => if i < 2 then .ok .AliasSubstituted
        else .error ⟨.UnexpectedToken, ⟨⟨"", 1, .Unknown⟩, 1⟩⟩) 3 =
      some (.error ⟨.UnexpectedToken, ⟨⟨"", 1, .Unknown⟩, 1⟩⟩)) := by
  constructor
  · exact (finish_terminates
        (fun i => if i < 2 then .ok .AliasSubstituted else .ok (.Empty 7)) 2 7
        ⟨.UnexpectedToken, ⟨⟨"", 1, .Unknown⟩, 1⟩⟩
        (by intro i hi; simp [hi])).1 (Or.inl (by simp))
  · exact (finish_terminates
        (fun i => if i < 2 then .ok .AliasSubstituted
          else .error ⟨.UnexpectedToken, ⟨⟨"", 1, .Unknown⟩, 1⟩⟩) 2 7
        ⟨.UnexpectedToken, ⟨⟨"", 1, .Unknown⟩, 1⟩⟩
        (by intro i hi; simp [hi])).2 (by simp)

/-- C4: `Rec::zip` sequencing. If the first result is `AliasSubstituted`,
the combination is `AliasSubstituted` for every second step (so the second
step is never invoked). If the first result is `Empty(t)`, the outcome is
determined by the second step's first invocation alone (invoked exactly
once), and the consumption marker equals the second step's: `Empty` stays
`Empty`, `NonEmpty` becomes `NonEmpty`, `AliasSubstituted` and errors
propagate. If the first result is `NonEmpty(t)`, the second step is driven
through the trampoline past any leading `AliasSubstituted` results, and the
combination is `NonEmpty`. -/
theorem rec_zip_spec {T U : Type} (t : T) (f g : Step U) (u : U) (e : Error)
    (n fuel1 fuel2 : Nat) :
    (Rec.zip (T := T) .AliasSubstituted f fuel1 = some (.ok .AliasSubstituted)) ∧
    (f 0 = g 0 → Rec.zip (.Empty t) f fuel1 = Rec.zip (.Empty t) g fuel2) ∧
    (f 0 = .ok (.Empty u) →
      Rec.zip (.Empty t) f fuel1 = some (.ok (.Empty (t, u)))) ∧
    (f 0 = .ok (.NonEmpty u) →
      Rec.zip (.Empty t) f fuel1 = some (.ok (.NonEmpty (t, u)))) ∧
    (f 0 = .ok .AliasSubstituted →
      Rec.zip (.Empty t) f fuel1 = some (.ok .AliasSubstituted)) ∧
    (f 0 = .error e → Rec.zip (.Empty t) f fuel1 = some (.error e)) ∧
    ((∀ i, i < n → f i = .ok .AliasSubstituted) →
      (f n = .ok (.Empty u) ∨ f n = .ok (.NonEmpty u)) →
      Rec.zip (.NonEmpty t) f (n + 1) = some (.ok (.NonEmpty (t, u)))) := by
  refine ⟨rfl, ?_, ?_, ?_, ?_, ?_, ?_⟩
  · intro h01
    simp only [Rec.zip, h01]
  · intro h; simp only [Rec.zip, h]
  · intro h; simp only [Rec.zip, h]
  · intro h; simp only [Rec.zip, h]
  · intro h; simp only [Rec.zip, h]
  · intro halias hfin
    have key := finishFrom_skip f n 0 (by intro i hi; simpa using halias i hi)
    simp only [Nat.zero_add] at key
    cases hfin with
    | inl h => simp only [Rec.zip, key, h]
    | inr h => simp only [Rec.zip, key, h]

/-- Closed witness for `rec_zip_spec`: the three branches exercised at
concrete inputs — an `AliasSubstituted` first step, an `Empty` first step
whose second step returns `Empty 2` immediately, and a `NonEmpty` first
step whose second step alias-substitutes once before returning
`NonEmpty 2`. -/
theorem rec_zip_spec_witness :
    (Rec.zip (T := Nat) (U := Nat) .AliasSubstituted
        (fun _ => .ok (.Empty 2)) 1 = some (.ok .AliasSubstituted)) ∧
    (Rec.zip (T := Nat) (.Empty 1)
        (fun _ => .ok (.Empty 2)) 1 = some (.ok (.Empty (1, 2)))) ∧
    (Rec.zip (T := Nat) (.NonEmpty 1)
        (fun i => if i < 1 then .ok .AliasSubstituted else .ok (.NonEmpty 2)) 2 =
      some (.ok (.NonEmpty (1, 2)))) := by
  have dummy : Error := ⟨.UnexpectedToken, ⟨⟨"", 1, .Unknown⟩, 1⟩⟩
  refine ⟨?_, ?_, ?_⟩
  · exact (rec_zip_spec 1 (fun _ => .ok (.Empty 2)) (fun _ => .ok (.Empty 2))
      2 dummy 0 1 1).1
  · exact (rec_zip_spec 1 (fun _ => .ok (.Empty 2)) (fun _ => .ok (.Empty 2))
      2 dummy 0 1 1).2.2.1 rfl
  · exact (rec_zip_spec 1
      (fun i => if i < 1 then .ok .AliasSubstituted else .ok (.NonEmpty 2))
      (fun i => if i < 1 then .ok .AliasSubstituted else .ok (.NonEmpty 2))
      2 dummy 1 1 1).2.2.2.2.2.2
      (by intro i hi; simp [hi]) (Or.inr (by simp))

/-- A word. Modelled from the spec: the parser only forwards words (as
here-document delimiters) and anchors diagnostics at their location, so the
unit structure is collapsed to its text. -/
structure Word where
  units : String
  location : Location
deriving DecidableEq, Repr

/-- A token produced by the lexer. Only its presence in the parser's
lookahead slot matters to the properties below, so it is collapsed to the
word it covers. -/
structure Token where
  word : Word
deriving DecidableEq, Repr

/-- `PartialHereDoc` from the lexer interface: a here-document whose
content has not been read yet — its delimiter word and tab-removal flag. -/
structure PartialHereDoc where
  delimiter : Word
  remove_tabs : Bool
deriving DecidableEq, Repr

/-- `HereDoc` from the syntax tree: a here-document with its delimiter,
tab-removal flag and resolved content. -/
structure HereDoc where
  delimiter : Word
  remove_tabs : Bool
  content : Word
deriving DecidableEq, Repr

/-- Decidable equality for `Except`, needed to decide equality of parser
states on concrete inputs. -/
instance exceptDecEq {e a : Type} [DecidableEq e] [DecidableEq a] :
    DecidableEq (Except e a) := fun x y =>
  match x, y with
  | .error v, .error w =>
    if h : v = w then isTrue (h ▸ rfl)
    else isFalse (fun hc => h (by injection hc))
  | .error _, .ok _ => isFalse (fun hc => Except.noConfusion hc)
  | .ok _, .error _ => isFalse (fun hc => Except.noConfusion hc)
  | .ok v, .ok w =>
    if h : v = w then isTrue (h ▸ rfl)
    else isFalse (fun hc => h (by injection hc))

/-- `Parser` from `src/src/parser/core.rs`, minus the borrowed lexer's
internals: the lexer is abstracted to a state of type `L`, threaded through
the operations that read from it. -/
structure Parser (L : Type) where
  /-- State of the borrowed lexer. -/
  lexer : L
  /-- Token to parse next: `none` when no token is buffered, `some` when a
  token (or a cached lexer failure) is buffered in the lookahead slot. -/
  token : Option (Except Error Token)
  /-- Here-documents without contents, in the order they were memorized. -/
  unread_here_docs : List PartialHereDoc
  /-- Here-documents with contents, in the order they were resolved. -/
  read_here_docs : List HereDoc
deriving DecidableEq, Repr

/-- `Lexer::here_doc_content`, abstracted: given the lexer state, reads the
content of one partial here-document, returning the completed here-document
and the advanced lexer state, or a parse error. The lexer sources are not
in the sampled tree; every property below holds for an arbitrary such
function. -/
def HereDocReader (L : Type) : Type :=
  L → PartialHereDoc → Except Error (HereDoc × L)

/-- The `for ... in self.unread_here_docs.drain(..)` loop of
`Parser::here_doc_contents`: resolves the queued partial here-documents in
FIFO order, threading the lexer state, and returns the final lexer state,
the here-documents resolved (in order), and the first error if one
occurred (the `?` operator stops the loop there). -/
def runResolve {L : Type} (reader : HereDocReader L) :
    L → List PartialHereDoc → L × List HereDoc × Option Error
  | l, [] => (l, [], none)
  | l, d :: ds =>
    match reader l d with
    | .error e => (l, [], some e)
    | .ok (h, l2) =>
      let r := runResolve reader l2 ds
      (r.1, h :: r.2.1, r.2.2)

/-- `Parser::memorize_unread_here_doc`: appends a partial here-document to
the unread queue. -/
def Parser.memorize_unread_here_doc {L : Type} (p : Parser L)
    (d : PartialHereDoc) : Parser L :=
  { p with unread_here_docs := p.unread_here_docs ++ [d] }

/-- `Parser::here_doc_contents`. The leading `assert!(self.token.is_none())`
is embedded as the `none` result (the program aborts). Otherwise the unread
queue is drained in FIFO order through the lexer; because Rust's
`Vec::drain(..)` removes the drained elements even when the loop is exited
early by `?`, the unread queue is empty afterwards in every case, and the
here-documents resolved before a failure stay appended to the read queue. -/
def Parser.here_doc_contents {L : Type} (reader : HereDocReader L)
    (p : Parser L) : Option (Parser L × Except Error Unit) :=
  match p.token with
  | some _ => none
  | none =>
    let r := runResolve reader p.lexer p.unread_here_docs
    some ({ p with
              lexer := r.1
              unread_here_docs := []
              read_here_docs := p.read_here_docs ++ r.2.1 },
          match r.2.2 with
          | none => .ok ()
          | some e => .error e)

/-- `Parser::ensure_no_unread_here_doc`: fails with `MissingHereDocContent`
anchored at the first unresolved delimiter's location if the unread queue
is not empty. -/
def Parser.ensure_no_unread_here_doc {L : Type} (p : Parser L) :
    Except Error Unit :=
  match p.unread_here_docs with
  | [] => .ok ()
  | d :: _ => .error ⟨.MissingHereDocContent, d.delimiter.location⟩

/-- `Parser::take_read_here_docs` (`std::mem::take`): returns the resolved
here-documents accumulated so far and leaves the read queue empty. -/
def Parser.take_read_here_docs {L : Type} (p : Parser L) :
    List HereDoc × Parser L :=
  (p.read_here_docs, { p with read_here_docs := [] })

/-- On success, the resolution loop produces exactly one here-document per
queued partial here-document, in the same order: delimiters and tab-removal
flags line up positionally whenever the reader preserves them. -/
theorem runResolve_preserves_order {L : Type} (reader : HereDocReader L)
    (hpres : ∀ l d h l2, reader l d = .ok (h, l2) →
      h.delimiter = d.delimiter ∧ h.remove_tabs = d.remove_tabs) :
    ∀ (ds : List PartialHereDoc) (l l2 : L) (hs : List HereDoc),
      runResolve reader l ds = (l2, hs, none) →
      hs.map (fun h => (h.delimiter, h.remove_tabs)) =
        ds.map (fun d => (d.delimiter, d.remove_tabs)) := by
  intro ds
  induction ds with
  | nil =>
    intro l l2 hs h
    simp only [runResolve] at h
    have h1 := congrArg (fun x => x.2.1) h
    simp only at h1
    rw [← h1]
    simp
  | cons d ds ih =>
    intro l l2 hs h
    cases hr : reader l d with
    | error e =>
      simp only [runResolve, hr] at h
      have h2 := congrArg (fun x => x.2.2) h
      simp only at h2
      exact absurd h2 (by simp)
    | ok pl =>
      obtain ⟨hh, ll⟩ := pl
      simp only [runResolve, hr] at h
      obtain ⟨hd, ht⟩ := hpres l d hh ll hr
      have h1 := congrArg (fun x => x.2.1) h
      have h2 := congrArg (fun x => x.2.2) h
      simp only at h1 h2
      have hres : runResolve reader ll ds =
          ((runResolve reader ll ds).1, (runResolve reader ll ds).2.1, none) := by
        rw [← h2]
      have htail := ih ll _ _ hres
      rw [← h1]
      simp [htail, hd, ht]

/-- The parser state after a successful resolution pass that left the
lexer in state `l2` and produced the here-documents `hs`: the unread queue
is drained and the results are appended to the read queue. -/
def Parser.afterResolve {L : Type} (p : Parser L) (l2 : L)
    (hs : List HereDoc) : Parser L :=
  { p with
      lexer := l2
      unread_here_docs := []
      read_here_docs := p.read_here_docs ++ hs }

/-- C2: a single successful `here_doc_contents` call resolves the partial
here-documents queued since the last resolution in FIFO order, appending
the results to the read queue in that same order (delimiters and
tab-removal flags line up positionally whenever the lexer preserves them);
`take_read_here_docs` then returns exactly the accumulated read queue,
leaves it empty, and a second take returns nothing. -/
theorem here_doc_contents_fifo {L : Type} (reader : HereDocReader L)
    (p : Parser L) (l2 : L) (hs : List HereDoc)
    (htok : p.token = none)
    (hrun : runResolve reader p.lexer p.unread_here_docs = (l2, hs, none))
    (hpres : ∀ l d h l3, reader l d = .ok (h, l3) →
      h.delimiter = d.delimiter ∧ h.remove_tabs = d.remove_tabs) :
    Parser.here_doc_contents reader p =
      some (Parser.afterResolve p l2 hs, .ok ()) ∧
    hs.map (fun h => (h.delimiter, h.remove_tabs)) =
      p.unread_here_docs.map (fun d => (d.delimiter, d.remove_tabs)) ∧
    (Parser.take_read_here_docs (Parser.afterResolve p l2 hs)).1 =
      p.read_here_docs ++ hs ∧
    (Parser.take_read_here_docs
      (Parser.afterResolve p l2 hs)).2.read_here_docs = [] ∧
    (Parser.take_read_here_docs
      (Parser.take_read_here_docs (Parser.afterResolve p l2 hs)).2).1 = [] := by
  refine ⟨?_, ?_, rfl, rfl, rfl⟩
  · simp only [Parser.here_doc_contents, htok, hrun, Parser.afterResolve]
  · exact runResolve_preserves_order reader hpres p.unread_here_docs
      p.lexer l2 hs hrun

/-- Sample location used by the closed witnesses. -/
def locW : Location := ⟨⟨"", 1, .Unknown⟩, 1⟩

/-- Sample here-document reader used by the closed witnesses: preserves the
delimiter and tab-removal flag, attaches a fixed content, and advances the
lexer state by one. -/
def readerW : HereDocReader Nat :=
  fun l d => .ok (⟨d.delimiter, d.remove_tabs, ⟨"body", locW⟩⟩, l + 1)

/-- Sample partial here-document `ONE`. -/
def pdW1 : PartialHereDoc := ⟨⟨"ONE", locW⟩, false⟩

/-- Sample partial here-document `TWO`. -/
def pdW2 : PartialHereDoc := ⟨⟨"TWO", locW⟩, true⟩

/-- `pdW1` as resolved by `readerW`. -/
def hdW1 : HereDoc := ⟨⟨"ONE", locW⟩, false, ⟨"body", locW⟩⟩

/-- `pdW2` as resolved by `readerW`. -/
def hdW2 : HereDoc := ⟨⟨"TWO", locW⟩, true, ⟨"body", locW⟩⟩

/-- Sample parser with two queued partial here-documents and no buffered
token. -/
def pW : Parser Nat := ⟨0, none, [pdW1, pdW2], []⟩

/-- Closed witness for `here_doc_contents_fifo` on `pW`. -/
theorem here_doc_contents_fifo_witness :
    Parser.here_doc_contents readerW pW =
      some (Parser.afterResolve pW 2 [hdW1, hdW2], .ok ()) ∧
    ([hdW1, hdW2].map (fun h => (h.delimiter, h.remove_tabs)) =
      pW.unread_here_docs.map (fun d => (d.delimiter, d.remove_tabs))) ∧
    (Parser.take_read_here_docs (Parser.afterResolve pW 2 [hdW1, hdW2])).1 =
      pW.read_here_docs ++ [hdW1, hdW2] ∧
    (Parser.take_read_here_docs
      (Parser.afterResolve pW 2 [hdW1, hdW2])).2.read_here_docs = [] ∧
    (Parser.take_read_here_docs
      (Parser.take_read_here_docs
        (Parser.afterResolve pW 2 [hdW1, hdW2])).2).1 = [] :=
  here_doc_contents_fifo readerW pW 2 [hdW1, hdW2] rfl rfl
    (by
      intro l d h l3 hr
      simp only [readerW, Except.ok.injEq, Prod.mk.injEq] at hr
      rw [← hr.1]
      exact ⟨rfl, rfl⟩)

/-- C6: calling `here_doc_contents` while a token is buffered in the
lookahead slot aborts (the `assert!` panics, modelled as `none`); calling
it with no buffered token returns a value, and is a no-op when the unread
queue is also empty. -/
theorem here_doc_contents_guard {L : Type} (reader : HereDocReader L)
    (p : Parser L) :
    ((∃ tk, p.token = some tk) → Parser.here_doc_contents reader p = none) ∧
    (p.token = none → ∃ r, Parser.here_doc_contents reader p = some r) ∧
    (p.token = none → p.unread_here_docs = [] →
      Parser.here_doc_contents reader p = some (p, .ok ())) := by
  refine ⟨?_, ?_, ?_⟩
  · rintro ⟨tk, htk⟩
    simp [Parser.here_doc_contents, htk]
  · intro h
    simp [Parser.here_doc_contents, h]
  · intro h hu
    obtain ⟨lx, tok, unread, readq⟩ := p
    simp only at h hu
    subst h
    subst hu
    simp [Parser.here_doc_contents, runResolve]

/-- Sample parser with a buffered token. -/
def pTokW : Parser Nat := ⟨0, some (.ok ⟨⟨"X", locW⟩⟩), [], []⟩

/-- Sample parser with no buffered token and empty queues. -/
def pEmptyW : Parser Nat := ⟨0, none, [], []⟩

/-- Closed witness for `here_doc_contents_guard`: with a buffered token the
call aborts; with no buffered token and an empty unread queue it is a
no-op. -/
theorem here_doc_contents_guard_witness :
    Parser.here_doc_contents readerW pTokW = none ∧
    Parser.here_doc_contents readerW pEmptyW = some (pEmptyW, .ok ()) :=
  ⟨(here_doc_contents_guard readerW pTokW).1 ⟨.ok ⟨⟨"X", locW⟩⟩, rfl⟩,
    (here_doc_contents_guard readerW pEmptyW).2.2 rfl rfl⟩

/-- `Operator` from `src/src/parser/lex/op.rs`: operator token
identifier. -/
inductive Operator where
  | LessLess
  | LessLessDash
deriving DecidableEq, Repr

mutual

/-- `Trie` from `src/src/parser/lex/op.rs`: a node is a sorted array of
edges. -/
inductive Trie where
  | mk (edges : List Edge) : Trie

/-- `Edge` from `src/src/parser/lex/op.rs`: a key character, the operator
delimited if the match stops after this edge, and the sub-trie for longer
matches. -/
inductive Edge where
  | mk (key : Char) (value : Option Operator) (next : Trie) : Edge

end

/-- The edge list of a trie node. -/
def Trie.edges : Trie → List Edge
  | .mk es => es

/-- The key character of an edge. -/
def Edge.key : Edge → Char
  | .mk k _ _ => k

/-- The operator value of an edge. -/
def Edge.value : Edge → Option Operator
  | .mk _ v _ => v

/-- The sub-trie of an edge. -/
def Edge.next : Edge → Trie
  | .mk _ _ n => n

/-- Rust's slice `binary_search_by_key` on the edge keys: classic halving
search returning the index of an edge whose key equals `key`, if found.
The `fuel` argument makes the loop structural; it is initialized to the
slice length, which bounds the number of halving steps. -/
def binarySearchEdges (es : List Edge) (key : Char) :
    Nat → Nat → Nat → Option Nat
  | 0, _, _ => none
  | fuel + 1, lo, hi =>
    if lo < hi then
      let mid := (lo + hi) / 2
      match es.get? mid with
      | none => none
      | some e =>
        if e.key < key then binarySearchEdges es key fuel (mid + 1) hi
        else if key < e.key then binarySearchEdges es key fuel lo mid
        else some mid
    else none

/-- `Trie::edge` from `src/src/parser/lex/op.rs`: finds the edge for the
given key by binary search over the sorted edge list. -/
def Trie.edge (t : Trie) (key : Char) : Option Edge :=
  (binarySearchEdges t.edges key (t.edges.length + 1) 0 t.edges.length).bind
    (fun i => t.edges.get? i)

/-- `NONE` from `src/src/parser/lex/op.rs`: trie containing nothing. -/
def NONE : Trie := .mk []

/-- `LESS_LESS` from `src/src/parser/lex/op.rs`: trie of the operators
that start with two less-than signs. -/
def LESS_LESS : Trie := .mk [.mk '-' (some .LessLessDash) NONE]

/-- `LESS` from `src/src/parser/lex/op.rs`: trie of the operators that
start with one less-than sign. -/
def LESS : Trie := .mk [.mk '<' (some .LessLess) LESS_LESS]

/-- `OPERATORS` from `src/src/parser/lex/op.rs`: trie containing all the
operators. -/
def OPERATORS : Trie := .mk [.mk '<' none LESS]

/-- Modelled from the spec: greedy longest-match tokenization over a trie
(§4.1) — "at each step, attempt to extend the match; only stop when no
edge matches the next character, then emit the deepest encountered
completed-operator value". `best` records the deepest completed operator
seen so far together with the input left after it; the lexer loop itself
is not part of the sampled sources. -/
def tokenizeGo (t : Trie) (input : List Char)
    (best : Option (Operator × List Char)) : Option (Operator × List Char) :=
  match input with
  | [] => best
  | c :: rest =>
    match t.edge c with
    | none => best
    | some e =>
      tokenizeGo e.next rest
        (match e.value with
         | some op => some (op, rest)
         | none => best)

/-- Greedy longest-match tokenization of an operator from the start of the
input, over a trie. -/
def tokenizeOp (t : Trie) (input : List Char) : Option (Operator × List Char) :=
  tokenizeGo t input none

/-- C5: greedy longest-match tokenization over `OPERATORS` yields
`LessLessDash` for the three characters of a double-less-dash, yields
`LessLess` with the final character left unconsumed when that character
extends no match, and yields no operator at all when only the valueless
root edge matches. -/
theorem operators_trie_greedy :
    tokenizeOp OPERATORS ['<', '<', '-'] = some (.LessLessDash, []) ∧
    tokenizeOp OPERATORS ['<', '<', 'x'] = some (.LessLess, ['x']) ∧
    tokenizeOp OPERATORS ['<', 'x'] = none := by
  refine ⟨?_, ?_, ?_⟩ <;> rfl

/-- `Origin` from `src/yash-semantics/src/expansion.rs`: origin of a
character produced in the initial expansion. -/
inductive Origin where
  | Literal
  | HardExpansion
  | SoftExpansion
deriving DecidableEq, Repr

/-- `AttrChar` from `src/yash-semantics/src/expansion.rs`: character with
attributes describing its origin and quoting state. -/
structure AttrChar where
  value : Char
  origin : Origin
  is_quoted : Bool
  is_quoting : Bool
deriving DecidableEq, Repr

/-- `AttrField` from `src/yash-semantics/src/expansion.rs`: a string of
attributed characters with the location of the word it resulted from. -/
structure AttrField where
  chars : List AttrChar
  origin : Location
deriving DecidableEq, Repr

/-- `Field` from the execution environment: a plain string value plus its
origin location — the result after quote removal. -/
structure Field where
  value : String
  origin : Location
deriving DecidableEq, Repr

/-- The two `Expansion` implementors from
`src/yash-semantics/src/expansion.rs`: a single-field accumulator
(`Vec<AttrChar>`) and a multi-field accumulator (`Vec<Vec<AttrChar>>`). -/
inductive ExpansionState where
  | single (chars : List AttrChar)
  | multi (fields : List (List AttrChar))
deriving DecidableEq, Repr

/-- The `Vec<Vec<AttrChar>>` `push_char`: append to the last field if one
exists, otherwise open a new field holding just this character. -/
def pushToLast : List (List AttrChar) → AttrChar → List (List AttrChar)
  | [], c => [[c]]
  | [f], c => [f ++ [c]]
  | f :: rest, c => f :: pushToLast rest c

/-- `Expansion::push_char` as implemented by the two accumulators. -/
def ExpansionState.push_char : ExpansionState → AttrChar → ExpansionState
  | .single cs, c => .single (cs ++ [c])
  | .multi fs, c => .multi (pushToLast fs c)

/-- The provided (default) `Expansion::push_str`: pushes each character of
the string with the shared `origin`, `is_quoted` and `is_quoting`
attributes; neither accumulator overrides it. -/
def ExpansionState.push_str (e : ExpansionState) (s : String) (origin : Origin)
    (is_quoted is_quoting : Bool) : ExpansionState :=
  s.toList.foldl (fun acc c => acc.push_char ⟨c, origin, is_quoted, is_quoting⟩) e

/-- `Output` from `src/yash-semantics/src/expansion.rs`: a wrapper of an
`Expansion` with quotation tracking. `is_quoted` tells whether the
currently expanded part is inside a quotation. -/
structure Output where
  inner : ExpansionState
  is_quoted : Bool
deriving DecidableEq, Repr

/-- `Output::new`: wraps an accumulator with `is_quoted` false. -/
def Output.new (inner : ExpansionState) : Output :=
  { inner := inner, is_quoted := false }

/-- The `Expansion` impl for `Output`, `push_char`: the pushed character's
`is_quoted` flag is OR-ed with the scope flag before delegation. -/
def Output.push_char (o : Output) (c : AttrChar) : Output :=
  { o with inner := o.inner.push_char { c with is_quoted := c.is_quoted || o.is_quoted } }

/-- The `Expansion` impl for `Output`, `push_str`: delegates with the
requested `is_quoted` flag OR-ed with the scope flag. -/
def Output.push_str (o : Output) (s : String) (origin : Origin)
    (is_quoted is_quoting : Bool) : Output :=
  { o with inner := o.inner.push_str s origin (is_quoted || o.is_quoted) is_quoting }

/-- `Output::begin_quote`: saves the current `is_quoted` value (the
`was_quoted` field of the returned `QuotedOutput` guard) and sets
`is_quoted` to true. -/
def Output.begin_quote (o : Output) : Output × Bool :=
  ({ o with is_quoted := true }, o.is_quoted)

/-- `Output::end_quote` / `impl Drop for QuotedOutput`: restores
`is_quoted` to the value saved by the matching `begin_quote`. -/
def Output.end_quote (o : Output) (was_quoted : Bool) : Output :=
  { o with is_quoted := was_quoted }

/-- `n` nested `begin_quote` calls: returns the final output and the stack
of saved `was_quoted` values, most recent first. -/
def beginQuotes : Output → Nat → Output × List Bool
  | o, 0 => (o, [])
  | o, n + 1 =>
    let p := beginQuotes o n
    let q := p.1.begin_quote
    (q.1, q.2 :: p.2)

/-- Releases a stack of guards in LIFO order (most recent first), each
restoring the value saved at its own acquisition. -/
def endQuotes : Output → List Bool → Output
  | o, [] => o
  | o, s :: ss => endQuotes (o.end_quote s) ss

/-- The characters stored in an accumulator, flattened in order. -/
def ExpansionState.storedChars : ExpansionState → List AttrChar
  | .single cs => cs
  | .multi fs => fs.flatten

/-- Both accumulators store a pushed character by appending it, verbatim,
to the stored sequence. -/
theorem storedChars_push_char (e : ExpansionState) (c : AttrChar) :
    (e.push_char c).storedChars = e.storedChars ++ [c] := by
  cases e with
  | single cs => rfl
  | multi fs =>
    show (pushToLast fs c).flatten = fs.flatten ++ [c]
    induction fs with
    | nil => rfl
    | cons f rest ih =>
      cases rest with
      | nil => simp [pushToLast]
      | cons g rest2 =>
        simp only [pushToLast, List.flatten_cons] at ih ⊢
        rw [ih]
        simp [List.append_assoc]

/-- The default `push_str` appends one attributed character per character
of the string, sharing the given attributes. -/
theorem storedChars_push_str (e : ExpansionState) (s : String) (og : Origin)
    (qd qg : Bool) :
    (e.push_str s og qd qg).storedChars =
      e.storedChars ++ s.toList.map (fun v => ⟨v, og, qd, qg⟩) := by
  show (s.toList.foldl
      (fun acc c => acc.push_char ⟨c, og, qd, qg⟩) e).storedChars = _
  induction s.toList generalizing e with
  | nil => simp
  | cons c cs ih =>
    simp only [List.foldl_cons, List.map_cons]
    rw [ih, storedChars_push_char, List.append_assoc]
    rfl

/-- C1: every character pushed through an `Output` is stored in the
underlying accumulator with its `is_quoted` flag OR-ed with the scope
flag: in general the stored flag is the requested flag OR `is_quoted()`;
while the quoting scope is active the stored flag is true even when the
requested flag was false; and a flag requested true is never lowered.
The same holds for every character pushed via `push_str`. -/
theorem output_push_quoted (o : Output) (c : AttrChar) (s : String)
    (og : Origin) (qg : Bool) :
    ((o.push_char c).inner.storedChars =
      o.inner.storedChars ++ [{ c with is_quoted := c.is_quoted || o.is_quoted }]) ∧
    (o.is_quoted = true →
      (o.push_char c).inner.storedChars =
        o.inner.storedChars ++ [{ c with is_quoted := true }]) ∧
    (c.is_quoted = true →
      (o.push_char c).inner.storedChars = o.inner.storedChars ++ [c]) ∧
    (o.is_quoted = true →
      (o.push_str s og false qg).inner.storedChars =
        o.inner.storedChars ++ s.toList.map (fun v => ⟨v, og, true, qg⟩)) := by
  refine ⟨?_, ?_, ?_, ?_⟩
  · exact storedChars_push_char o.inner _
  · intro h
    have := storedChars_push_char o.inner
      { c with is_quoted := c.is_quoted || o.is_quoted }
    simpa [Output.push_char, h] using this
  · intro h
    obtain ⟨v, oc, qd, qc⟩ := c
    simp only at h
    subst h
    have := storedChars_push_char o.inner ⟨v, oc, true || o.is_quoted, qc⟩
    simpa [Output.push_char] using this
  · intro h
    have := storedChars_push_str o.inner s og (false || o.is_quoted) qg
    simpa [Output.push_str, h] using this

/-- Closed witness for `output_push_quoted`: a quoting-scoped output
stores an unquoted requested character as quoted, and keeps a quoted one
quoted. -/
theorem output_push_quoted_witness :
    ((Output.push_char ⟨.single [], true⟩ ⟨'a', .Literal, false, false⟩).inner.storedChars =
      [⟨'a', .Literal, true, false⟩]) ∧
    ((Output.push_char ⟨.single [], true⟩ ⟨'b', .Literal, true, false⟩).inner.storedChars =
      [⟨'b', .Literal, true, false⟩]) ∧
    ((Output.push_str ⟨.single [], true⟩ "cd" .Literal false false).inner.storedChars =
      [⟨'c', .Literal, true, false⟩, ⟨'d', .Literal, true, false⟩]) := by
  refine ⟨?_, ?_, ?_⟩
  · exact (output_push_quoted ⟨.single [], true⟩ ⟨'a', .Literal, false, false⟩
      "" .Literal false).2.1 rfl
  · exact (output_push_quoted ⟨.single [], true⟩ ⟨'b', .Literal, true, false⟩
      "" .Literal false).2.2.1 rfl
  · have := (output_push_quoted ⟨.single [], true⟩ ⟨'b', .Literal, true, false⟩
      "cd" .Literal false).2.2.2 rfl
    simpa using this

/-- Releasing every guard in LIFO order returns the output to exactly its
state before the first acquisition, whatever that state was. -/
theorem endQuotes_beginQuotes (o : Output) (n : Nat) :
    endQuotes (beginQuotes o n).1 (beginQuotes o n).2 = o := by
  induction n generalizing o with
  | zero => rfl
  | succ m ih =>
    show endQuotes
      (((beginQuotes o m).1.begin_quote).1)
      (((beginQuotes o m).1.begin_quote).2 :: (beginQuotes o m).2) = o
    show endQuotes
      ((((beginQuotes o m).1.begin_quote).1).end_quote
        (((beginQuotes o m).1.begin_quote).2)) (beginQuotes o m).2 = o
    have hq : (((beginQuotes o m).1.begin_quote).1).end_quote
        (((beginQuotes o m).1.begin_quote).2) = (beginQuotes o m).1 := rfl
    rw [hq]
    exact ih o

/-- C7: after `n ≥ 1` nested `begin_quote` acquisitions followed by `n`
releases in matching LIFO order, the output — in particular its
`is_quoted` flag — equals exactly its value before the first acquisition:
each release restores the value saved at its matching acquisition, never
unconditionally false. -/
theorem nested_quotes_restore (o : Output) (n : Nat) (_hn : 1 ≤ n) :
    (endQuotes (beginQuotes o n).1 (beginQuotes o n).2).is_quoted =
      o.is_quoted ∧
    endQuotes (beginQuotes o n).1 (beginQuotes o n).2 = o ∧
    (∀ (p : Output) (s : Bool), (p.end_quote s).is_quoted = s) := by
  refine ⟨?_, endQuotes_beginQuotes o n, fun p s => rfl⟩
  rw [endQuotes_beginQuotes o n]

/-- Closed witness for `nested_quotes_restore`: two nested scopes over an
output that was already quoted; after both releases the flag is the
original true value, not false. -/
theorem nested_quotes_restore_witness :
    (endQuotes (beginQuotes ⟨.single [], true⟩ 2).1
      (beginQuotes ⟨.single [], true⟩ 2).2).is_quoted = true ∧
    endQuotes (beginQuotes ⟨.single [], true⟩ 2).1
      (beginQuotes ⟨.single [], true⟩ 2).2 = ⟨.single [], true⟩ ∧
    (∀ (p : Output) (s : Bool), (p.end_quote s).is_quoted = s) :=
  nested_quotes_restore ⟨.single [], true⟩ 2 (by decide)

/-- Modelled from the spec: `PatternChar` of the `yash-fnmatch` crate (not
in the sampled tree) — a pattern character that is either `Normal`
(possibly a wildcard) or `Literal` (never a wildcard), as produced by
`to_pattern`. -/
inductive PatternChar where
  | Normal (c : Char)
  | Literal (c : Char)
deriving DecidableEq, Repr

/-- Modelled from the spec: one atom of a compiled glob pattern —
"a compiled glob pattern (sequence of literal/wildcard atoms)" (§3), with
the wildcard forms of §4.6: a question mark, a star, and a bracket
expression (a set of characters enclosed in brackets). -/
inductive PatternAtom where
  | lit (c : Char)
  | anyChar
  | anyString
  | bracket (cs : List Char)
deriving DecidableEq, Repr

/-- Modelled from the spec: pattern compilation of the `yash-fnmatch`
crate, as a state machine over the character list. `inBracket` tells
whether a bracket expression opened by a `Normal` opening bracket is being
scanned (`cur` holds its members so far, reversed); compilation fails on
"an unterminated bracket expression" (§8). `Literal` characters never open
or close a bracket expression. `acc` holds the atoms compiled so far,
reversed. -/
def parsePatternGo : List PatternChar → Bool → List Char → List PatternAtom →
    Option (List PatternAtom)
  | [], inBracket, _, acc => if inBracket then none else some acc.reverse
  | pc :: rest, true, cur, acc =>
    match pc with
    | .Normal c =>
      if c = ']' then parsePatternGo rest false [] (.bracket cur.reverse :: acc)
      else parsePatternGo rest true (c :: cur) acc
    | .Literal c => parsePatternGo rest true (c :: cur) acc
  | pc :: rest, false, cur, acc =>
    match pc with
    | .Normal c =>
      if c = '*' then parsePatternGo rest false cur (.anyString :: acc)
      else if c = '?' then parsePatternGo rest false cur (.anyChar :: acc)
      else if c = '[' then parsePatternGo rest true [] acc
      else parsePatternGo rest false cur (.lit c :: acc)
    | .Literal c => parsePatternGo rest false cur (.lit c :: acc)

/-- Modelled from the spec: `Pattern::parse_with_config` with the
configuration fixed by `to_pattern` — anchored at both ends with the
literal-period rule (§4.6); returns `none` when the pattern fails to
compile. -/
def parse_with_config (chars : List PatternChar) : Option (List PatternAtom) :=
  parsePatternGo chars false [] []

/-- Modelled from the spec: `Pattern::into_literal` — the compiled pattern
"has no wildcard atoms at all (purely literal)" (§4.6 step 1) iff every
atom is a literal character; in that case the literal text is returned,
otherwise the pattern itself. -/
def into_literal (p : List PatternAtom) : Except (List PatternAtom) String :=
  if p.all (fun a => match a with | .lit _ => true | _ => false) then
    .ok (String.mk (p.filterMap (fun a =>
      match a with | .lit c => some c | _ => none)))
  else .error p

/-- Modelled from the spec: anchored-at-both-ends matching of a compiled
pattern against a candidate name's characters (§4.6). -/
def atomsMatch : List PatternAtom → List Char → Bool
  | [], [] => true
  | [], _ :: _ => false
  | .lit c :: as, d :: ds => c = d && atomsMatch as ds
  | .lit _ :: _, [] => false
  | .anyChar :: as, _ :: ds => atomsMatch as ds
  | .anyChar :: _, [] => false
  | .bracket cs :: as, d :: ds => cs.contains d && atomsMatch as ds
  | .bracket _ :: _, [] => false
  | .anyString :: as, [] => atomsMatch as []
  | .anyString :: as, d :: ds =>
    atomsMatch as (d :: ds) || atomsMatch (.anyString :: as) ds
termination_by as ds => as.length + ds.length

/-- Modelled from the spec: `Pattern::is_match` under the configuration
set by `to_pattern`, including the literal-period rule: "a leading period
in a candidate name is matched only by an explicit literal period in the
pattern (never by a wildcard atom)" (§4.6). -/
def is_match (p : List PatternAtom) (name : String) : Bool :=
  match name.toList with
  | '.' :: _ =>
    match p with
    | .lit c :: _ => c = '.' && atomsMatch p name.toList
    | _ => false
  | _ => atomsMatch p name.toList

/-- Modelled from the spec: `AttrField::remove_quotes_and_strip` — "the
original input field with quoting stripped (fallback-to-literal policy)"
(§4.6 step 3): quoting characters are dropped and the remaining characters
are stripped of their attributes, keeping the field's origin location. -/
def AttrField.remove_quotes_and_strip (f : AttrField) : Field :=
  ⟨String.mk ((f.chars.filter (fun c => !c.is_quoting)).map (fun c => c.value)),
    f.origin⟩

/-- `to_pattern` from `src/yash-semantics/src/expansion/glob.rs`: quoting
characters are dropped; quoted characters and characters originating from
a hard expansion become literal pattern characters; all others become
normal (possibly-wildcard) pattern characters; the result is compiled
anchored at both ends with the literal-period rule. -/
def to_pattern (field : AttrField) : Option (List PatternAtom) :=
  parse_with_config (field.chars.filterMap (fun c =>
    if c.is_quoting then none
    else if c.is_quoted || decide (c.origin = Origin.HardExpansion) then
      some (.Literal c.value)
    else some (.Normal c.value)))

/-- Modelled from the spec: the directory-scan capability provided by the
execution environment (§6). `opendir_result` is what `opendir` on the
scanned directory returns: a failure, or the handle modelled as the list
of results that successive `Dir::next` calls yield — `some name` for an
entry, `none` for the end of the directory, wrapped in `Except` for read
failures. -/
structure GlobSysState where
  opendir_result : Except Unit (List (Except Unit (Option String)))
deriving Repr

/-- Insertion of a field into a value-sorted list, ascending by string
value. -/
def insertField (x : Field) : List Field → List Field
  | [] => [x]
  | y :: ys => if y.value < x.value then y :: insertField x ys else x :: y :: ys

/-- `paths.sort_unstable_by(|a, b| a.value.cmp(&b.value))` from
`src/yash-semantics/src/expansion/glob.rs`: sorts the matched fields
ascending by value. -/
def sortFields : List Field → List Field
  | [] => []
  | x :: xs => insertField x (sortFields xs)

/-- The `while let Ok(entry) = dir.next()` loop of `glob` in
`src/yash-semantics/src/expansion/glob.rs`. On a successful entry the name
is matched and possibly collected; at the end of the directory the
function returns the no-match fallback or the sorted matches; when
`dir.next()` fails the loop exits into `todo!("Handle dir.next error")`,
which aborts — embedded as `none`, as is the (unreachable in well-formed
traces) exhaustion of the modelled result list. -/
def scanLoop (pattern : List PatternAtom) (field : AttrField) :
    List (Except Unit (Option String)) → List Field → Option (List Field)
  | [], _ => none
  | .error _ :: _, _ => none
  | .ok none :: _, paths =>
    some (if paths.isEmpty then [field.remove_quotes_and_strip]
      else sortFields paths)
  | .ok (some name) :: rest, paths =>
    if is_match pattern name then
      scanLoop pattern field rest (paths ++ [⟨name, field.origin⟩])
    else
      scanLoop pattern field rest paths

/-- `glob` from `src/yash-semantics/src/expansion/glob.rs`. The returned
iterator is embedded as the list of fields it yields; `none` embeds an
abort (the `unwrap` on `opendir` or the `todo!` after a `dir.next`
failure). A pattern that fails to compile falls back to the
quote-stripped field; a purely literal pattern is returned without any
directory access; otherwise the directory is scanned. -/
def glob (sys : GlobSysState) (field : AttrField) : Option (List Field) :=
  match to_pattern field with
  | none => some [field.remove_quotes_and_strip]
  | some pattern =>
    match into_literal pattern with
    | .ok literal => some [⟨literal, field.origin⟩]
    | .error pattern =>
      match sys.opendir_result with
      | .error _ => none
      | .ok entries => scanLoop pattern field entries []

/-- A directory whose scan immediately reports the end: no entries. -/
def sysEmptyW : GlobSysState := ⟨.ok [.ok none]⟩

/-- A field whose pattern fails to compile and which contains a quoting
character: a double-quote marked `is_quoting` followed by an unterminated
opening bracket. -/
def fCexW : AttrField :=
  ⟨[⟨'"', .Literal, false, true⟩, ⟨'[', .Literal, false, false⟩], locW⟩

/-- C8 counterexample: for `fCexW` the pattern fails to compile, and
`glob` returns a single field without error — but its text is the
original text with the quoting character removed, not the original
field's text unchanged. -/
theorem glob_invalid_pattern_text_changed :
    to_pattern fCexW = none ∧
    glob sysEmptyW fCexW = some [⟨"[", locW⟩] ∧
    String.mk (fCexW.chars.map (fun c => c.value)) = "\"[" ∧
    ("[" : String) ≠ "\"[" := by
  refine ⟨rfl, rfl, rfl, by decide⟩

/-- C8 (amended): for every field whose character sequence fails to
compile into a pattern, `glob` returns, without error or abort, a single
field whose text is the original field's text with the quoting
(`is_quoting`) characters removed, keeping the original location. -/
theorem glob_invalid_pattern_fallback (sys : GlobSysState) (f : AttrField)
    (h : to_pattern f = none) :
    glob sys f =
      some [⟨String.mk ((f.chars.filter (fun c => !c.is_quoting)).map
        (fun c => c.value)), f.origin⟩] := by
  simp [glob, h, AttrField.remove_quotes_and_strip]

/-- Closed witness for `glob_invalid_pattern_fallback` at `fCexW`. -/
theorem glob_invalid_pattern_fallback_witness :
    glob sysEmptyW fCexW = some [⟨"[", locW⟩] :=
  glob_invalid_pattern_fallback sysEmptyW fCexW rfl

/-- A field consisting of a single unquoted star: its compiled pattern is
a wildcard, so `glob` must scan the directory. -/
def fStarW : AttrField := ⟨[⟨'*', .SoftExpansion, false, false⟩], locW⟩

/-- A system whose `opendir` fails. -/
def sysOpenFailW : GlobSysState := ⟨.error ()⟩

/-- A system whose directory opens but whose first `Dir::next` fails. -/
def sysReadFailW : GlobSysState := ⟨.ok [.error ()]⟩

/-- C9: contrary to the documented "any errors are silently ignored"
policy, a failing directory scan aborts `glob`: with a wildcard pattern,
an `opendir` failure hits the `unwrap` and a `dir.next` failure hits the
`todo!`, both panicking instead of falling back to the literal text. -/
theorem glob_scan_failure_aborts :
    to_pattern fStarW = some [.anyString] ∧
    glob sysOpenFailW fStarW = none ∧
    glob sysReadFailW fStarW = none :=
  ⟨rfl, rfl, rfl⟩

/-- C10: Equality on parse `ErrorCause` (and hence on parse `Error`) is not
reflexive: an `IoError` value compares unequal to every `ErrorCause`,
itself included, in either argument position; a variant compares equal to
itself exactly when it is not an `IoError`; and an `Error` whose cause is
an `IoError` compares unequal to itself. -/
theorem errorcause_eq_not_reflexive :
    (∀ (d : IoErrorData) (c : ErrorCause),
      ErrorCause.beq (.IoError d) c = false ∧
      ErrorCause.beq c (.IoError d) = false) ∧
    (ErrorCause.beq .UnexpectedToken .UnexpectedToken = true ∧
      ErrorCause.beq .MissingHereDocDelimiter .MissingHereDocDelimiter = true ∧
      ErrorCause.beq .MissingHereDocContent .MissingHereDocContent = true) ∧
    (∀ c : ErrorCause, ErrorCause.beq c c = true ↔ ∀ d, c ≠ .IoError d) ∧
    (∀ (d : IoErrorData) (loc : Location),
      Error.beq ⟨.IoError d, loc⟩ ⟨.IoError d, loc⟩ = false) := by
  refine ⟨?_, ⟨rfl, rfl, rfl⟩, ?_, ?_⟩
  · intro d c
    cases c <;> exact ⟨rfl, rfl⟩
  · intro c
    cases c with
    | IoError d =>
        simp [ErrorCause.beq]
    | UnexpectedToken => simp [ErrorCause.beq]
    | MissingHereDocDelimiter => simp [ErrorCause.beq]
    | MissingHereDocContent => simp [ErrorCause.beq]
  · intro d loc
    simp [Error.beq, ErrorCause.beq]

/-- Closed witness for `errorcause_eq_not_reflexive`: a concrete `IoError`
compares unequal to itself. -/
theorem errorcause_eq_not_reflexive_witness :
    ErrorCause.beq (.IoError ⟨"broken pipe"⟩) (.IoError ⟨"broken pipe"⟩) =
      false :=
  (errorcause_eq_not_reflexive.1 ⟨"broken pipe"⟩
    (.IoError ⟨"broken pipe"⟩)).1

end Yash
